import Mathlib

/-
Verification of keras-transformer (keras_transformer/transformer.py).

Shallow embedding conventions:
  * floating point tensors are modelled over the rationals (exact arithmetic);
  * a tensor of shape (batch, seq) is a total function Mat := Nat -> Nat -> Rat,
    a tensor of shape (batch, seq, d_model) is Ten3 := Nat -> Nat -> Nat -> Rat;
    shape dimensions are passed explicitly where the code reads them via
    K.int_shape (reductions only touch the in-range indices);
  * external real-valued primitives to which the code gives no algebraic role
    beyond being applied (K.sigmoid, K.sqrt, the attention layer, the Dropout
    layer at a positive rate, the activation passed to the transition) are
    opaque function parameters.
-/

/-- Tensor of shape (batch, sequence_length). -/
abbrev Mat : Type := ℕ → ℕ → ℚ

/-- Tensor of shape (batch, sequence_length, d_model). -/
abbrev Ten3 : Type := ℕ → ℕ → ℕ → ℚ

/-- TransformerACT.mask_length_if_provided: multiplies a (batch, seq) tensor
with the boolean mask tf.sequence_mask(lengths, maxlen=sequence_length),
whose entry at (i, j) is (j < lengths i); no lengths means no masking. -/
def mask_length_if_provided (input : Mat) (lengths : Option (ℕ → ℕ)) : Mat :=
  match lengths with
  | none => input
  | some l => fun i j => input i j * (if j < l i then 1 else 0)

/-- The control tensors created by TransformerACT.initialize_control_tensors
together with the batch size they were created for. -/
structure ControlTensors where
  zeros_like_halting : Mat
  ones_like_halting : Mat
  remainder : Mat
  active_steps : Mat
  halt_budget : Mat
  batch_size : ℕ

/-- TransformerACT.initialize_control_tensors: zeros/ones helpers,
remainder = 1, active_steps = 0, halt_budget = 1 - halt_epsilon. -/
def init_control_tensors (halt_epsilon : ℚ) (batch_size : ℕ) : ControlTensors :=
  { zeros_like_halting := fun _ _ => 0
    ones_like_halting := fun _ _ => 1
    remainder := fun _ _ => 1
    active_steps := fun _ _ => 0
    halt_budget := fun _ _ => 1 - halt_epsilon
    batch_size := batch_size }

/-- The mutable attributes of a TransformerACT layer instance.  The control
tensors are bundled in an Option: they are all None after __init__ and are
all created together by initialize_control_tensors, guarded by the check on
zeros_like_halting.  The losses list models the Keras add_loss sink. -/
structure ACTState where
  halt_epsilon : ℚ
  time_penalty : ℚ
  return_step : Bool
  halting_kernel : ℕ → ℚ
  halting_biases : ℚ
  ponder_cost : Option (ℕ → ℚ)
  weighted_output : Option (ℕ × Ten3)
  control : Option ControlTensors
  losses : List (Option (ℕ → ℚ))

/-- The list returned by TransformerACT.call:
[input, weighted_output, ponder_cost] plus active_steps if return_step. -/
structure ACTOutput where
  out_input : Ten3
  weighted : Ten3
  ponder : ℕ → ℚ
  step : Option Mat

/-- The sigmoid halting unit of TransformerACT.call:
sigmoid(input @ halting_kernel + halting_biases), reshaped to (batch, seq).
sigmoidFn is the opaque backend K.sigmoid. -/
def haltingOf (sigmoidFn : ℚ → ℚ) (st : ACTState) (d : ℕ) (input : Ten3) : Mat :=
  fun i j =>
    sigmoidFn ((∑ k ∈ Finset.range d, input i j k * st.halting_kernel k) + st.halting_biases)

/-- The lazy-reinitialization guard at the top of TransformerACT.call:
if self.zeros_like_halting is None or self.batch_size != batch_size,
the control tensors are (re)created; otherwise the stored ones are used. -/
def controlAfterGuard (st : ACTState) (batch_size : ℕ) : ControlTensors :=
  match st.control with
  | none => init_control_tensors st.halt_epsilon batch_size
  | some c =>
      if c.batch_size ≠ batch_size then init_control_tensors st.halt_epsilon batch_size else c

/-- halting_prob = K.switch(step_is_active,
K.switch(no_further_steps, remainder, halting), zeros_like_halting), with
step_is_active = halt_budget > 0 and
no_further_steps = (halt_budget - halting) <= 0, all elementwise. -/
def halting_prob (c : ControlTensors) (halting : Mat) : Mat :=
  fun i j =>
    if 0 < c.halt_budget i j then
      (if c.halt_budget i j - halting i j ≤ 0 then c.remainder i j else halting i j)
    else c.zeros_like_halting i j

/-- self.active_steps += K.switch(step_is_active, ones, zeros). -/
def incremented_active_steps (c : ControlTensors) : Mat :=
  fun i j =>
    c.active_steps i j +
      (if 0 < c.halt_budget i j then c.ones_like_halting i j else c.zeros_like_halting i j)

/-- The control-tensor updates performed by one TransformerACT.call, after the
masking of remainder and active_steps by the signal length:
remainder = K.switch(no_further_steps, remainder, remainder - halting) and
halt_budget -= halting (deliberately allowed to become negative). -/
def step_control (c : ControlTensors) (halting : Mat) (lengths : Option (ℕ → ℕ)) :
    ControlTensors :=
  { c with
    remainder := fun i j =>
      if c.halt_budget i j - halting i j ≤ 0 then
        mask_length_if_provided c.remainder lengths i j
      else
        mask_length_if_provided c.remainder lengths i j - halting i j
    active_steps := mask_length_if_provided (incremented_active_steps c) lengths
    halt_budget := fun i j => c.halt_budget i j - halting i j }

/-- self.ponder_cost = time_penalty_t * K.mean(remainder + active_steps,
axis=1), evaluated on the masked remainder (before its update on this call)
and the masked, already incremented active_steps; K.mean over the sequence
axis is the sum over j < s divided by s. -/
def ponder_cost_of (time_penalty : ℚ) (s : ℕ) (c : ControlTensors)
    (lengths : Option (ℕ → ℕ)) : ℕ → ℚ :=
  fun i =>
    time_penalty *
      ((∑ j ∈ Finset.range s,
          (mask_length_if_provided c.remainder lengths i j +
            mask_length_if_provided (incremented_active_steps c) lengths i j)) / (s : ℚ))

/-- TransformerACT.call, translated line for line.  b, s, d are the static
shape (batch_size, sequence_length, d_model) obtained from K.int_shape.
The any_step_is_active switch replaces the weighted product with a zero
tensor when K.sum(K.cast(step_is_active, int32)) is not positive; the
weighted_output accumulator is restarted when absent or when its leading
dimension differs from the current batch size. -/
def TransformerACT.call (sigmoidFn : ℚ → ℚ) (st : ACTState) (b s d : ℕ)
    (input : Ten3) (lengths : Option (ℕ → ℕ)) : ACTState × ACTOutput :=
  let halting := haltingOf sigmoidFn st d input
  let c := controlAfterGuard st b
  let ponder := ponder_cost_of st.time_penalty s c lengths
  let c2 := step_control c halting lengths
  let step_weighted_output : Ten3 :=
    if 0 < (∑ i ∈ Finset.range b, ∑ j ∈ Finset.range s,
        (if 0 < c.halt_budget i j then (1 : ℤ) else 0)) then
      fun i j k => halting_prob c halting i j * input i j k
    else
      fun _ _ _ => 0
  let weighted1 : ℕ × Ten3 :=
    match st.weighted_output with
    | none => (b, step_weighted_output)
    | some (wb, w) =>
        if wb ≠ b then (b, step_weighted_output)
        else (b, fun i j k => w i j k + step_weighted_output i j k)
  let st2 : ACTState :=
    { st with
      control := some c2
      ponder_cost := some ponder
      weighted_output := some weighted1 }
  (st2,
    { out_input := input
      weighted := weighted1.2
      ponder := ponder
      step := if st.return_step then some c2.active_steps else none })

/-- TransformerACT.finalize: self.add_loss(self.ponder_cost). -/
def TransformerACT.finalize (st : ACTState) : ACTState :=
  { st with losses := st.losses ++ [st.ponder_cost] }

/-- The learned parameters of a LayerNormalization layer: gain and bias of
shape (d_model,). -/
structure LayerNormalization where
  gain : ℕ → ℚ
  bias : ℕ → ℚ

/-- LayerNormalization.call with the default axis = -1 (the feature axis):
mean and variance over the last axis with keepdims, epsilon = 1e-5, then
gain * (x - mean) / sqrt(variance + epsilon) + bias.  sqrtFn is the opaque
backend K.sqrt. -/
def LayerNormalization.call (sqrtFn : ℚ → ℚ) (ln : LayerNormalization) (d : ℕ)
    (inputs : Ten3) : Ten3 :=
  fun i j k =>
    let mean := (∑ t ∈ Finset.range d, inputs i j t) / (d : ℚ)
    let variance := (∑ t ∈ Finset.range d, (inputs i j t - mean) ^ 2) / (d : ℚ)
    ln.gain k * ((inputs i j k - mean) / sqrtFn (variance + 1 / 100000)) + ln.bias k

/-- TransformerTransition.call: flattens batch and sequence axes, applies
activation(x @ weights1 + biases1) @ weights2 + biases2 position-wise and
restores the shape; positions are independent, so the flattening is the
identity in this embedding.  m is size_multiplier (hidden = m * d). -/
def TransformerTransition.call (activation : ℚ → ℚ) (weights1 : ℕ → ℕ → ℚ)
    (biases1 : ℕ → ℚ) (weights2 : ℕ → ℕ → ℚ) (biases2 : ℕ → ℚ) (m d : ℕ)
    (inputs : Ten3) : Ten3 :=
  fun i j k =>
    (∑ h ∈ Finset.range (m * d),
        activation ((∑ t ∈ Finset.range d, inputs i j t * weights1 t h) + biases1 h) *
          weights2 h k) +
      biases2 k

/-- The pieces of a constructed TransformerBlock that its __call__ uses.
attention_layer is the opaque MultiHeadSelfAttention collaborator applied to
[input, lengths]; dropout_fn is the opaque Dropout layer chosen when
residual_dropout > 0; transition_layer is the layer picked by
transition_type (TransformerTransition for dot, Conv1D for cnn). -/
structure TransformerBlock where
  vanilla_wiring : Bool
  residual_dropout : ℚ
  dropout_fn : Ten3 → Ten3
  attention_layer : Ten3 → Option (ℕ → ℕ) → Ten3
  transition_layer : Ten3 → Ten3
  norm1_layer : LayerNormalization
  norm2_layer : LayerNormalization
  d_model : ℕ

/-- self.dropout_layer = Dropout(residual_dropout) if residual_dropout > 0
else the identity lambda. -/
def TransformerBlock.dropout_layer (blk : TransformerBlock) : Ten3 → Ten3 :=
  if 0 < blk.residual_dropout then blk.dropout_fn else fun x => x

/-- The Add layer. -/
def addT (x y : Ten3) : Ten3 := fun i j k => x i j k + y i j k

/-- The computation of TransformerBlock.__call__ after its argument dispatch:
attention, first residual with dropout placed according to vanilla_wiring,
first normalization, transition, second residual, second normalization. -/
def TransformerBlock.callBody (sqrtFn : ℚ → ℚ) (blk : TransformerBlock)
    (input : Ten3) (lengths : Option (ℕ → ℕ)) : Ten3 :=
  let output := blk.attention_layer input lengths
  let post_residual1 :=
    if blk.vanilla_wiring then addT input (blk.dropout_layer output)
    else blk.dropout_layer (addT input output)
  let norm1_output := LayerNormalization.call sqrtFn blk.norm1_layer blk.d_model post_residual1
  let output2 := blk.transition_layer norm1_output
  let post_residual2 :=
    if blk.vanilla_wiring then addT norm1_output (blk.dropout_layer output2)
    else blk.dropout_layer (addT norm1_output output2)
  LayerNormalization.call sqrtFn blk.norm2_layer blk.d_model post_residual2

/-- TransformerBlock.__init__: validates transition_type against the two
implemented variants; anything else raises NotImplementedError before any
layer is ever called.  The opaque sub-layers are taken as arguments; the
Conv1D transition of the cnn variant is created lazily at first call, with
the same call contract, so it is passed here as a function as well. -/
def TransformerBlock.init (transition_type : String) (residual_dropout : ℚ)
    (vanilla_wiring : Bool) (dropout_fn : Ten3 → Ten3)
    (attention_fn : Ten3 → Option (ℕ → ℕ) → Ten3)
    (transition_dot : Ten3 → Ten3) (transition_cnn : Ten3 → Ten3)
    (norm1 norm2 : LayerNormalization) (d_model : ℕ) :
    Except String TransformerBlock :=
  if transition_type = "dot" then
    Except.ok
      { vanilla_wiring := vanilla_wiring
        residual_dropout := residual_dropout
        dropout_fn := dropout_fn
        attention_layer := attention_fn
        transition_layer := transition_dot
        norm1_layer := norm1
        norm2_layer := norm2
        d_model := d_model }
  else if transition_type = "cnn" then
    Except.ok
      { vanilla_wiring := vanilla_wiring
        residual_dropout := residual_dropout
        dropout_fn := dropout_fn
        attention_layer := attention_fn
        transition_layer := transition_cnn
        norm1_layer := norm1
        norm2_layer := norm2
        d_model := d_model }
  else
    Except.error ("Transformer transition " ++ transition_type ++ " is not implemented.")

/-- A Python value reaching TransformerBlock.__call__: either a backend
tensor (with its static shape) or a Python list of values. -/
inductive PyVal where
  | tensor (data : Ten3) (shape : List ℕ)
  | pylist (xs : List PyVal)

/-- Python len() as it behaves on the values above: the length of a list;
a symbolic backend tensor does not implement __len__, so len() on it raises
TypeError, modelled as none. -/
def pyLen : PyVal → Option ℕ
  | PyVal.pylist xs => some xs.length
  | PyVal.tensor _ _ => none

/-- Outcome of the argument dispatch of TransformerBlock.__call__. -/
inductive PyCallResult (α : Type) where
  | ok (a : α)
  | valueError (msg : String)
  | typeError (msg : String)

/-- The argument dispatch prefix of TransformerBlock.__call__:
if isinstance(_input, list) and len(_input) == 2 it unpacks input and
lengths; elif len(_input) == 3 it takes _input itself as the input tensor
(note: len of the value, not the rank of its shape); else it raises
ValueError. -/
def TransformerBlock.parseCallInput (v : PyVal) : PyCallResult (PyVal × Option PyVal) :=
  match v with
  | PyVal.pylist [a, b] => PyCallResult.ok (a, some b)
  | _ =>
      match pyLen v with
      | none => PyCallResult.typeError "object of type Tensor has no len()"
      | some n =>
          if n = 3 then PyCallResult.ok (v, none)
          else
            PyCallResult.valueError
              ("You must call this layer passing either a list of two tensors" ++
                "(for input and lengths), or a single input tensor")

/-- The (halt_budget, remainder) pair of a single (batch-element, token)
position; every control-tensor update of TransformerACT.call is elementwise
in these two fields. -/
structure TokenCtl where
  halt_budget : ℚ
  remainder : ℚ

/-- The per-position control update of one unmasked ACT call (the (i, j)
component of step_control with no lengths): budget decremented
unconditionally, remainder decremented unless this call exhausts it. -/
def tokenStep (p : ℚ) (t : TokenCtl) : TokenCtl :=
  { halt_budget := t.halt_budget - p
    remainder := if t.halt_budget - p ≤ 0 then t.remainder else t.remainder - p }

/-- The per-position effective halting weight of one ACT call (the (i, j)
component of halting_prob): the remainder on the exhausting step, the
halting probability on other active steps, zero once halted. -/
def tokenWeight (p : ℚ) (t : TokenCtl) : ℚ :=
  if 0 < t.halt_budget then (if t.halt_budget - p ≤ 0 then t.remainder else p) else 0

/-- Sum of the effective halting weights of a position over a sequence of
calls with halting probabilities ps. -/
def tokenWeights (t : TokenCtl) : List ℚ → ℚ
  | [] => 0
  | p :: rest => tokenWeight p t + tokenWeights (tokenStep p t) rest

/-- Whether some call of the sequence exhausts the halting budget of the
position: reaches it with halt_budget > 0 and halt_budget - p <= 0. -/
def tokenExhausts (t : TokenCtl) : List ℚ → Bool
  | [] => false
  | p :: rest =>
      (decide (0 < t.halt_budget) && decide (t.halt_budget - p ≤ 0)) ||
        tokenExhausts (tokenStep p t) rest

/-- A position whose budget is already exhausted receives weight zero on
every further call, as long as halting probabilities are nonnegative. -/
theorem tokenWeights_halted (ps : List ℚ) : ∀ t : TokenCtl, t.halt_budget ≤ 0 →
    (∀ p ∈ ps, 0 ≤ p) → tokenWeights t ps = 0 := by
  induction ps with
  | nil => intro t _ _; rfl
  | cons p rest ih =>
      intro t ht hnn
      have hp : 0 ≤ p := hnn p (List.mem_cons_self p rest)
      have hb : ¬ 0 < t.halt_budget := not_lt.mpr ht
      have hstep : (tokenStep p t).halt_budget ≤ 0 := by
        simp only [tokenStep]
        linarith
      have hrest : ∀ q ∈ rest, 0 ≤ q := fun q hq => hnn q (List.mem_cons_of_mem p hq)
      simp [tokenWeights, tokenWeight, hb, ih (tokenStep p t) hstep hrest]

/-- A position whose budget is already exhausted never exhausts it again,
as long as halting probabilities are nonnegative. -/
theorem tokenExhausts_halted (ps : List ℚ) : ∀ t : TokenCtl, t.halt_budget ≤ 0 →
    (∀ p ∈ ps, 0 ≤ p) → tokenExhausts t ps = false := by
  induction ps with
  | nil => intro t _ _; rfl
  | cons p rest ih =>
      intro t ht hnn
      have hp : 0 ≤ p := hnn p (List.mem_cons_self p rest)
      have hb : ¬ 0 < t.halt_budget := not_lt.mpr ht
      have hstep : (tokenStep p t).halt_budget ≤ 0 := by
        simp only [tokenStep]
        linarith
      have hrest : ∀ q ∈ rest, 0 ≤ q := fun q hq => hnn q (List.mem_cons_of_mem p hq)
      simp [tokenExhausts, hb, ih (tokenStep p t) hstep hrest]

/-- Budget conservation at a single position: if some call of the sequence
exhausts the budget, the weights over the whole sequence add up to exactly
the remainder the position started with. -/
theorem tokenWeights_of_exhausts (ps : List ℚ) : ∀ t : TokenCtl,
    (∀ p ∈ ps, 0 ≤ p) → tokenExhausts t ps = true →
    tokenWeights t ps = t.remainder := by
  induction ps with
  | nil => intro t _ hex; simp [tokenExhausts] at hex
  | cons p rest ih =>
      intro t hnn hex
      have hp : 0 ≤ p := hnn p (List.mem_cons_self p rest)
      have hrest : ∀ q ∈ rest, 0 ≤ q := fun q hq => hnn q (List.mem_cons_of_mem p hq)
      by_cases hact : 0 < t.halt_budget
      · by_cases hexh : t.halt_budget - p ≤ 0
        · have hstep : (tokenStep p t).halt_budget ≤ 0 := by
            simp only [tokenStep]; linarith
          simp [tokenWeights, tokenWeight, hact, hexh,
            tokenWeights_halted rest (tokenStep p t) hstep hrest]
        · have hex2 : tokenExhausts (tokenStep p t) rest = true := by
            simp [tokenExhausts, hexh] at hex
            exact hex
          have := ih (tokenStep p t) hrest hex2
          simp only [tokenWeights, tokenWeight, hact, hexh, if_true, if_false,
            if_pos, if_neg, this]
          simp only [tokenStep, if_neg hexh]
          ring
      · have ht : t.halt_budget ≤ 0 := not_lt.mp hact
        have hstep : (tokenStep p t).halt_budget ≤ 0 := by
          simp only [tokenStep]; linarith
        rw [tokenExhausts] at hex
        simp [hact, tokenExhausts_halted rest (tokenStep p t) hstep hrest] at hex

/-- Sum, over a sequence of ACT calls on the same instance (all with the
same static shape and no lengths mask unless given), of the effective
halting weights (halting_prob) applied to the weighted output at position
(i, j).  Each call advances the state exactly as TransformerACT.call does. -/
def runWeights (f : ℚ → ℚ) (b s d i j : ℕ) (lengths : Option (ℕ → ℕ)) :
    ACTState → List Ten3 → ℚ
  | _, [] => 0
  | st, inp :: rest =>
      halting_prob (controlAfterGuard st b) (haltingOf f st d inp) i j +
        runWeights f b s d i j lengths (TransformerACT.call f st b s d inp lengths).1 rest

/-- Whether some call of the sequence reaches position (i, j) with
halt_budget > 0 and halt_budget - halting <= 0, i.e. exhausts its budget. -/
def exhaustsDuring (f : ℚ → ℚ) (b s d i j : ℕ) (lengths : Option (ℕ → ℕ)) :
    ACTState → List Ten3 → Bool
  | _, [] => false
  | st, inp :: rest =>
      (decide (0 < (controlAfterGuard st b).halt_budget i j) &&
        decide ((controlAfterGuard st b).halt_budget i j - haltingOf f st d inp i j ≤ 0)) ||
        exhaustsDuring f b s d i j lengths (TransformerACT.call f st b s d inp lengths).1 rest

/-- All halting probabilities produced for position (i, j) over the inputs
of a call sequence are nonnegative (they are sigmoid outputs in the code). -/
def halting_nonneg (f : ℚ → ℚ) (st : ACTState) (d i j : ℕ) (ps : List Ten3) : Bool :=
  ps.all fun inp => decide (0 ≤ haltingOf f st d inp i j)

theorem call_state_control (f : ℚ → ℚ) (st : ACTState) (b s d : ℕ) (inp : Ten3)
    (lengths : Option (ℕ → ℕ)) :
    ((TransformerACT.call f st b s d inp lengths).1).control =
      some (step_control (controlAfterGuard st b) (haltingOf f st d inp) lengths) := rfl

theorem controlAfterGuard_batch_size (st : ACTState) (b : ℕ) :
    (controlAfterGuard st b).batch_size = b := by
  cases hsc : st.control with
  | none => simp [controlAfterGuard, hsc, init_control_tensors]
  | some c =>
      simp only [controlAfterGuard, hsc]
      split
      · simp [init_control_tensors]
      · next h => exact not_ne_iff.mp h

theorem step_control_batch_size (c : ControlTensors) (h : Mat) (lengths : Option (ℕ → ℕ)) :
    (step_control c h lengths).batch_size = c.batch_size := rfl

theorem step_control_zeros (c : ControlTensors) (h : Mat) (lengths : Option (ℕ → ℕ)) :
    (step_control c h lengths).zeros_like_halting = c.zeros_like_halting := rfl

theorem controlAfterGuard_of_some (st : ACTState) (b : ℕ) (c : ControlTensors)
    (hc : st.control = some c) (hb : c.batch_size = b) :
    controlAfterGuard st b = c := by
  simp [controlAfterGuard, hc, hb]

/-- After a call with batch size b, the guard of the next call with the same
batch size keeps the stored control tensors: the control state of
consecutive same-shape calls chains through step_control. -/
theorem controlAfterGuard_call (f : ℚ → ℚ) (st : ACTState) (b s d : ℕ) (inp : Ten3)
    (lengths : Option (ℕ → ℕ)) :
    controlAfterGuard ((TransformerACT.call f st b s d inp lengths).1) b =
      step_control (controlAfterGuard st b) (haltingOf f st d inp) lengths :=
  controlAfterGuard_of_some _ b _ (call_state_control f st b s d inp lengths)
    (by rw [step_control_batch_size, controlAfterGuard_batch_size])

theorem halting_prob_eq_tokenWeight (c : ControlTensors) (h : Mat) (i j : ℕ)
    (hz : c.zeros_like_halting i j = 0) :
    halting_prob c h i j =
      tokenWeight (h i j) ⟨c.halt_budget i j, c.remainder i j⟩ := by
  unfold halting_prob tokenWeight
  split
  · rfl
  · exact hz

theorem step_control_none_token (c : ControlTensors) (h : Mat) (i j : ℕ) :
    (⟨(step_control c h none).halt_budget i j, (step_control c h none).remainder i j⟩ : TokenCtl)
      = tokenStep (h i j) ⟨c.halt_budget i j, c.remainder i j⟩ := rfl

/-- The position (i, j) projection of a sequence of unmasked ACT calls is
exactly the token state machine run on the halting probabilities of that
position. -/
theorem runWeights_eq_tokenWeights (f : ℚ → ℚ) (b s d i j : ℕ) (ps : List Ten3) :
    ∀ st : ACTState, (controlAfterGuard st b).zeros_like_halting i j = 0 →
    runWeights f b s d i j none st ps =
      tokenWeights
        ⟨(controlAfterGuard st b).halt_budget i j, (controlAfterGuard st b).remainder i j⟩
        (ps.map fun inp => haltingOf f st d inp i j) := by
  induction ps with
  | nil => intro st _; rfl
  | cons inp rest ih =>
      intro st hz
      have hz2 : (controlAfterGuard ((TransformerACT.call f st b s d inp none).1) b).zeros_like_halting i j = 0 := by
        rw [controlAfterGuard_call, step_control_zeros]
        exact hz
      rw [runWeights, List.map_cons, tokenWeights,
        halting_prob_eq_tokenWeight _ _ i j hz,
        ih (TransformerACT.call f st b s d inp none).1 hz2,
        controlAfterGuard_call, step_control_none_token]
      rfl

/-- Same projection for the budget-exhaustion predicate. -/
theorem exhaustsDuring_eq_tokenExhausts (f : ℚ → ℚ) (b s d i j : ℕ) (ps : List Ten3) :
    ∀ st : ACTState,
    exhaustsDuring f b s d i j none st ps =
      tokenExhausts
        ⟨(controlAfterGuard st b).halt_budget i j, (controlAfterGuard st b).remainder i j⟩
        (ps.map fun inp => haltingOf f st d inp i j) := by
  induction ps with
  | nil => intro st; rfl
  | cons inp rest ih =>
      intro st
      rw [exhaustsDuring, List.map_cons, tokenExhausts,
        ih (TransformerACT.call f st b s d inp none).1,
        controlAfterGuard_call, step_control_none_token]
      rfl

/-- Claim C1: for every token of an ACT instance (freshly built, then called
sequentially with constant shape and no lengths mask) that exhausts its
halting budget at some call (reaches a call with halt_budget > 0 and
halt_budget - p <= 0), the sum over all calls of the effective halting
weights applied to the weighted output (p on non-exhausting active steps,
the remainder on the exhausting step, 0 afterwards) is exactly 1 in exact
arithmetic. -/
theorem act_budget_conservation (f : ℚ → ℚ) (st : ACTState) (b s d i j : ℕ)
    (ps : List Ten3)
    (h0 : st.control = none)
    (hnn : halting_nonneg f st d i j ps = true)
    (hex : exhaustsDuring f b s d i j none st ps = true) :
    runWeights f b s d i j none st ps = 1 := by
  have hz : (controlAfterGuard st b).zeros_like_halting i j = 0 := by
    simp [controlAfterGuard, h0, init_control_tensors]
  have hnn2 : ∀ q ∈ ps.map fun inp => haltingOf f st d inp i j, 0 ≤ q := by
    intro q hq
    rcases List.mem_map.mp hq with ⟨inp, hinp, rfl⟩
    exact of_decide_eq_true (List.all_eq_true.mp hnn inp hinp)
  have hex2 :
      tokenExhausts
        ⟨(controlAfterGuard st b).halt_budget i j, (controlAfterGuard st b).remainder i j⟩
        (ps.map fun inp => haltingOf f st d inp i j) = true := by
    rw [← exhaustsDuring_eq_tokenExhausts f b s d i j ps st]
    exact hex
  rw [runWeights_eq_tokenWeights f b s d i j ps st hz,
    tokenWeights_of_exhausts _ _ hnn2 hex2]
  simp [controlAfterGuard, h0, init_control_tensors]

/-- A sigmoid stand-in for the conservation witness: constantly one. -/
def cSig : ℚ → ℚ := fun _ => 1

/-- A constant input tensor for the witnesses. -/
def cInp : Ten3 := fun _ _ _ => 0

/-- A freshly constructed TransformerACT instance with the default
halt_epsilon = 0.01 and time_penalty = 0.01: no control tensors, no
accumulated output, no ponder cost yet. -/
def cFreshACT : ACTState :=
  { halt_epsilon := 1 / 100
    time_penalty := 1 / 100
    return_step := false
    halting_kernel := fun _ => 0
    halting_biases := 0
    ponder_cost := none
    weighted_output := none
    control := none
    losses := [] }

theorem act_budget_conservation_witness :
    cFreshACT.control = none ∧
      halting_nonneg cSig cFreshACT 1 0 0 [cInp] = true ∧
      exhaustsDuring cSig 1 1 1 0 0 none cFreshACT [cInp] = true ∧
      runWeights cSig 1 1 1 0 0 none cFreshACT [cInp] = 1 := by
  have h1 : halting_nonneg cSig cFreshACT 1 0 0 [cInp] = true := by
    simp [halting_nonneg, haltingOf, cSig, cInp, cFreshACT]
  have h2 : exhaustsDuring cSig 1 1 1 0 0 none cFreshACT [cInp] = true := by
    simp only [exhaustsDuring, controlAfterGuard, cFreshACT, init_control_tensors,
      haltingOf, cSig, Bool.or_eq_true, Bool.and_eq_true, decide_eq_true_eq]
    norm_num
  exact ⟨rfl, h1, h2, act_budget_conservation cSig cFreshACT 1 1 1 0 0 [cInp] rfl h1 h2⟩

/-- An ACT instance after its control tensors have been created for batch
size 1, with a fresh zero accumulator of leading dimension 1. -/
def cInitedACT : ACTState :=
  { cFreshACT with
    control := some (init_control_tensors (1 / 100) 1)
    weighted_output := some (1, cInp) }

/-- Claim C2: on a call of the ACT component, at each position, the
effective halting weight multiplied into the weighted output equals the
current remainder when halt_budget > 0 and halt_budget - p <= 0, the
computed halting probability p when halt_budget > 0 and halt_budget - p > 0,
and 0 when halt_budget <= 0. -/
theorem act_halting_weight_cases (f : ℚ → ℚ) (st : ACTState) (b s d : ℕ)
    (input : Ten3) (lengths : Option (ℕ → ℕ)) (w : Ten3) (i j : ℕ)
    (hz : (controlAfterGuard st b).zeros_like_halting i j = 0)
    (hw : st.weighted_output = some (b, w))
    (ha : 0 < ∑ i2 ∈ Finset.range b, ∑ j2 ∈ Finset.range s,
        (if 0 < (controlAfterGuard st b).halt_budget i2 j2 then (1 : ℤ) else 0)) :
    (∀ k, ((TransformerACT.call f st b s d input lengths).2).weighted i j k =
        w i j k +
          halting_prob (controlAfterGuard st b) (haltingOf f st d input) i j * input i j k) ∧
    (0 < (controlAfterGuard st b).halt_budget i j →
      (controlAfterGuard st b).halt_budget i j - haltingOf f st d input i j ≤ 0 →
      halting_prob (controlAfterGuard st b) (haltingOf f st d input) i j =
        (controlAfterGuard st b).remainder i j) ∧
    (0 < (controlAfterGuard st b).halt_budget i j →
      0 < (controlAfterGuard st b).halt_budget i j - haltingOf f st d input i j →
      halting_prob (controlAfterGuard st b) (haltingOf f st d input) i j =
        haltingOf f st d input i j) ∧
    ((controlAfterGuard st b).halt_budget i j ≤ 0 →
      halting_prob (controlAfterGuard st b) (haltingOf f st d input) i j = 0) := by
  refine ⟨?_, ?_, ?_, ?_⟩
  · intro k
    simp only [TransformerACT.call, hw, ne_eq, not_true_eq_false, if_false, ha, if_pos]
  · intro h1 h2
    simp [halting_prob, h1, h2]
  · intro h1 h2
    simp [halting_prob, h1, not_le.mpr h2]
  · intro h1
    simp [halting_prob, not_lt.mpr h1, hz]

theorem act_halting_weight_cases_witness :
    (controlAfterGuard cInitedACT 1).zeros_like_halting 0 0 = 0 ∧
      cInitedACT.weighted_output = some (1, cInp) ∧
      (0 < ∑ i2 ∈ Finset.range 1, ∑ j2 ∈ Finset.range 1,
          (if 0 < (controlAfterGuard cInitedACT 1).halt_budget i2 j2 then (1 : ℤ) else 0)) ∧
      ((TransformerACT.call cSig cInitedACT 1 1 1 cInp none).2).weighted 0 0 0 =
        cInp 0 0 0 +
          halting_prob (controlAfterGuard cInitedACT 1) (haltingOf cSig cInitedACT 1 cInp) 0 0 *
            cInp 0 0 0 := by
  have hz : (controlAfterGuard cInitedACT 1).zeros_like_halting 0 0 = 0 := rfl
  have hw : cInitedACT.weighted_output = some (1, cInp) := rfl
  have ha : 0 < ∑ i2 ∈ Finset.range 1, ∑ j2 ∈ Finset.range 1,
      (if 0 < (controlAfterGuard cInitedACT 1).halt_budget i2 j2 then (1 : ℤ) else 0) := by
    simp only [controlAfterGuard, cInitedACT, cFreshACT, init_control_tensors,
      Finset.sum_range_one]
    norm_num
  exact ⟨hz, hw, ha,
    (act_halting_weight_cases cSig cInitedACT 1 1 1 cInp none cInp 0 0 hz hw ha).1 0⟩

/-- Claim C3: on an ACT call, the stored control tensors become
step_control of the current ones; there the halt budget is decremented by p
unconditionally (no clamping, and it stays negative under nonnegative p once
negative), while the remainder (as it stands after the length masking that
precedes the ponder cost) is unchanged where halt_budget - p <= 0 and
decremented by p elsewhere. -/
theorem act_remainder_budget_update (f : ℚ → ℚ) (st : ACTState) (b s d : ℕ)
    (input : Ten3) (lengths : Option (ℕ → ℕ)) (c : ControlTensors) (i j : ℕ)
    (hc : st.control = some c) (hb : c.batch_size = b) :
    ((TransformerACT.call f st b s d input lengths).1.control =
      some (step_control c (haltingOf f st d input) lengths)) ∧
    ((step_control c (haltingOf f st d input) lengths).halt_budget i j =
      c.halt_budget i j - haltingOf f st d input i j) ∧
    ((step_control c (haltingOf f st d input) lengths).remainder i j =
      if c.halt_budget i j - haltingOf f st d input i j ≤ 0 then
        mask_length_if_provided c.remainder lengths i j
      else mask_length_if_provided c.remainder lengths i j - haltingOf f st d input i j) ∧
    (c.halt_budget i j < 0 → 0 ≤ haltingOf f st d input i j →
      (step_control c (haltingOf f st d input) lengths).halt_budget i j < 0) := by
  have hguard : controlAfterGuard st b = c := controlAfterGuard_of_some st b c hc hb
  refine ⟨?_, rfl, rfl, ?_⟩
  · rw [call_state_control, hguard]
  · intro h1 h2
    simp only [step_control]
    linarith

theorem act_remainder_budget_update_witness :
    cInitedACT.control = some (init_control_tensors (1 / 100) 1) ∧
      (init_control_tensors (1 / 100) 1).batch_size = 1 ∧
      (step_control (init_control_tensors (1 / 100) 1) (haltingOf cSig cInitedACT 1 cInp)
            none).halt_budget 0 0 =
        (init_control_tensors (1 / 100) 1).halt_budget 0 0 -
          haltingOf cSig cInitedACT 1 cInp 0 0 :=
  ⟨rfl, rfl,
    (act_remainder_budget_update cSig cInitedACT 1 1 1 cInp none
        (init_control_tensors (1 / 100) 1) 0 0 rfl rfl).2.1⟩

/-- Claim C5: on a first call (no control tensors yet) or a call whose batch
size differs from the stored one, the control state is (re)initialized for
every position: halt_budget = 1 - halt_epsilon, remainder = 1,
active_steps = 0, zero/one helper tensors created; with the default
halt_epsilon = 0.01 the initial budget is exactly 0.99. -/
theorem act_control_reinit (st : ACTState) (b : ℕ)
    (h : st.control = none ∨ ∃ c, st.control = some c ∧ c.batch_size ≠ b) :
    controlAfterGuard st b = init_control_tensors st.halt_epsilon b ∧
    (∀ i j, (init_control_tensors st.halt_epsilon b).halt_budget i j = 1 - st.halt_epsilon) ∧
    (∀ i j, (init_control_tensors st.halt_epsilon b).remainder i j = 1) ∧
    (∀ i j, (init_control_tensors st.halt_epsilon b).active_steps i j = 0) ∧
    (∀ i j, (init_control_tensors st.halt_epsilon b).zeros_like_halting i j = 0 ∧
      (init_control_tensors st.halt_epsilon b).ones_like_halting i j = 1) ∧
    (st.halt_epsilon = 1 / 100 → ∀ i j,
      (init_control_tensors st.halt_epsilon b).halt_budget i j = 99 / 100) := by
  refine ⟨?_, fun i j => rfl, fun i j => rfl, fun i j => rfl, fun i j => ⟨rfl, rfl⟩, ?_⟩
  · rcases h with h | ⟨c, hc, hcb⟩
    · simp [controlAfterGuard, h]
    · simp [controlAfterGuard, hc, hcb]
  · intro he i j
    simp only [init_control_tensors, he]
    norm_num

theorem act_control_reinit_witness :
    cFreshACT.control = none ∧
      (init_control_tensors cFreshACT.halt_epsilon 1).halt_budget 0 0 = 99 / 100 :=
  ⟨rfl, (act_control_reinit cFreshACT 1 (Or.inl rfl)).2.2.2.2.2 rfl 0 0⟩

/-- Claim C4: every ACT call overwrites (never accumulates) the ponder cost
with time_penalty * mean(remainder + active_steps) over the sequence axis,
one scalar per batch row, computed from the remainder as it stands before
this call updates it (ponder_cost_of reads controlAfterGuard, not
step_control); the stored value does not depend on the previously stored
ponder cost; and finalize registers exactly one loss entry, namely whatever
ponder cost the most recent call left behind. -/
theorem act_ponder_overwrite_and_finalize (f : ℚ → ℚ) (st : ACTState) (b s d : ℕ)
    (input : Ten3) (lengths : Option (ℕ → ℕ)) (pc : Option (ℕ → ℚ)) :
    ((TransformerACT.call f st b s d input lengths).1.ponder_cost =
      some (ponder_cost_of st.time_penalty s (controlAfterGuard st b) lengths)) ∧
    ((TransformerACT.call f { st with ponder_cost := pc } b s d input lengths).1.ponder_cost =
      (TransformerACT.call f st b s d input lengths).1.ponder_cost) ∧
    (∀ st2 : ACTState, (TransformerACT.finalize st2).losses = st2.losses ++ [st2.ponder_cost]) ∧
    (∀ st2 : ACTState, ((TransformerACT.finalize st2).losses).length = st2.losses.length + 1) :=
  ⟨rfl, rfl, fun _ => rfl, fun st2 => by simp [TransformerACT.finalize]⟩

/-- Claim C6: when a lengths tensor is supplied, every position at or beyond
the valid length of its sequence is zeroed by the masking of remainder and
active_steps that precedes the ponder cost, so the ponder cost of the call
reduces to a sum over the valid positions only: padding positions
contribute zero. -/
theorem act_padding_zero_ponder (f : ℚ → ℚ) (st : ACTState) (b s d : ℕ)
    (input : Ten3) (l : ℕ → ℕ) :
    (∀ x : Mat, ∀ i j, l i ≤ j → mask_length_if_provided x (some l) i j = 0) ∧
    ((TransformerACT.call f st b s d input (some l)).1.ponder_cost =
      some (fun i => st.time_penalty *
        ((∑ j ∈ (Finset.range s).filter (fun j => j < l i),
            ((controlAfterGuard st b).remainder i j +
              incremented_active_steps (controlAfterGuard st b) i j)) / (s : ℚ)))) := by
  constructor
  · intro x i j h
    simp [mask_length_if_provided, not_lt.mpr h]
  · have hsum : ∀ i, (∑ j ∈ Finset.range s,
        (mask_length_if_provided (controlAfterGuard st b).remainder (some l) i j +
          mask_length_if_provided (incremented_active_steps (controlAfterGuard st b)) (some l) i j)) =
        ∑ j ∈ (Finset.range s).filter (fun j => j < l i),
          ((controlAfterGuard st b).remainder i j +
            incremented_active_steps (controlAfterGuard st b) i j) := by
      intro i
      rw [Finset.sum_filter]
      apply Finset.sum_congr rfl
      intro j _
      by_cases h : j < l i
      · simp [mask_length_if_provided, h]
      · simp [mask_length_if_provided, h]
    have h0 : (TransformerACT.call f st b s d input (some l)).1.ponder_cost =
        some (ponder_cost_of st.time_penalty s (controlAfterGuard st b) (some l)) := rfl
    rw [h0]
    congr 1
    funext i
    simp only [ponder_cost_of]
    rw [hsum i]

theorem act_padding_zero_ponder_witness :
    mask_length_if_provided (fun _ _ => 1) (some fun _ => 0) 0 0 = 0 :=
  (act_padding_zero_ponder cSig cFreshACT 1 1 1 cInp (fun _ => 0)).1
    (fun _ _ => 1) 0 0 (Nat.le_refl 0)

/-- A concrete tensor value of static shape (2, 5, 16). -/
def cT : PyVal := PyVal.tensor cInp [2, 5, 16]

/-- Claim C7 runs against the code here: a Python list of three tensors is
not rejected by TransformerBlock.__call__.  Because the elif branch tests
len(_input) == 3 on the raw argument rather than the rank
len(K.int_shape(_input)) == 3 (which is what TransformerACT.call tests),
a three-element list satisfies the check and is taken as the single input
tensor instead of raising the documented ValueError. -/
theorem block_call_three_list_accepted :
    TransformerBlock.parseCallInput (PyVal.pylist [cT, cT, cT]) =
      PyCallResult.ok (PyVal.pylist [cT, cT, cT], none) := rfl

/-- Claim C8: with residual_dropout = 0 the dropout layer is the identity
pass-through, and a block wired vanilla (2017) computes exactly the same
output as the same block wired universal (2018). -/
theorem block_wiring_equiv_no_dropout (sqrtFn : ℚ → ℚ) (blk : TransformerBlock)
    (input : Ten3) (lengths : Option (ℕ → ℕ))
    (h : blk.residual_dropout = 0) :
    TransformerBlock.callBody sqrtFn { blk with vanilla_wiring := true } input lengths =
      TransformerBlock.callBody sqrtFn { blk with vanilla_wiring := false } input lengths := by
  have hd1 : TransformerBlock.dropout_layer { blk with vanilla_wiring := true } = fun x => x := by
    simp [TransformerBlock.dropout_layer, h]
  have hd2 : TransformerBlock.dropout_layer { blk with vanilla_wiring := false } = fun x => x := by
    simp [TransformerBlock.dropout_layer, h]
  simp [TransformerBlock.callBody, hd1, hd2]

/-- Identity-parameter normalization layer used by the witnesses. -/
def cLN : LayerNormalization := { gain := fun _ => 1, bias := fun _ => 0 }

/-- A concrete block with dropout rate 0 and trivial opaque sub-layers. -/
def cBlock : TransformerBlock :=
  { vanilla_wiring := false
    residual_dropout := 0
    dropout_fn := fun x => x
    attention_layer := fun x _ => x
    transition_layer := fun x => x
    norm1_layer := cLN
    norm2_layer := cLN
    d_model := 1 }

theorem block_wiring_equiv_no_dropout_witness :
    cBlock.residual_dropout = 0 ∧
      TransformerBlock.callBody (fun q => q) { cBlock with vanilla_wiring := true } cInp none =
        TransformerBlock.callBody (fun q => q) { cBlock with vanilla_wiring := false } cInp none :=
  ⟨rfl, block_wiring_equiv_no_dropout (fun q => q) cBlock cInp none rfl⟩

/-- Claim C9: TransformerBlock construction succeeds for transition_type
"dot" and "cnn" and raises NotImplementedError at construction time for any
other value, before any call is made. -/
theorem block_transition_type_validation
    (residual_dropout : ℚ) (vanilla_wiring : Bool) (dropout_fn : Ten3 → Ten3)
    (attention_fn : Ten3 → Option (ℕ → ℕ) → Ten3)
    (transition_dot transition_cnn : Ten3 → Ten3)
    (norm1 norm2 : LayerNormalization) (d_model : ℕ) :
    (∃ blk, TransformerBlock.init "dot" residual_dropout vanilla_wiring dropout_fn
        attention_fn transition_dot transition_cnn norm1 norm2 d_model = Except.ok blk) ∧
    (∃ blk, TransformerBlock.init "cnn" residual_dropout vanilla_wiring dropout_fn
        attention_fn transition_dot transition_cnn norm1 norm2 d_model = Except.ok blk) ∧
    (∀ t : String, t ≠ "dot" → t ≠ "cnn" →
      TransformerBlock.init t residual_dropout vanilla_wiring dropout_fn
          attention_fn transition_dot transition_cnn norm1 norm2 d_model =
        Except.error ("Transformer transition " ++ t ++ " is not implemented.")) := by
  refine ⟨⟨_, rfl⟩, ⟨_, rfl⟩, ?_⟩
  intro t h1 h2
  simp [TransformerBlock.init, h1, h2]

theorem block_transition_type_validation_witness :
    ("foo" : String) ≠ "dot" ∧ ("foo" : String) ≠ "cnn" ∧
      TransformerBlock.init "foo" 0 false (fun x => x) (fun x _ => x) (fun x => x)
          (fun x => x) cLN cLN 1 =
        Except.error ("Transformer transition " ++ "foo" ++ " is not implemented.") := by
  have h1 : ("foo" : String) ≠ "dot" := by decide
  have h2 : ("foo" : String) ≠ "cnn" := by decide
  exact ⟨h1, h2,
    (block_transition_type_validation 0 false (fun x => x) (fun x _ => x)
      (fun x => x) (fun x => x) cLN cLN 1).2.2 "foo" h1 h2⟩

/-- Claim C10: adding a per-position constant uniformly to all features of a
position leaves the LayerNormalization output exactly unchanged (the mean
shifts by the constant, the centered deviations, variance and affine
rescale are unaffected), for any gain, bias and nonempty feature axis. -/
theorem layer_norm_shift_invariant (sqrtFn : ℚ → ℚ) (ln : LayerNormalization)
    (d : ℕ) (x : Ten3) (c : ℕ → ℕ → ℚ) (hd : 0 < d) :
    LayerNormalization.call sqrtFn ln d (fun i j k => x i j k + c i j) =
      LayerNormalization.call sqrtFn ln d x := by
  funext i j k
  have hdq : (d : ℚ) ≠ 0 := Nat.cast_ne_zero.mpr hd.ne'
  simp only [LayerNormalization.call]
  have hmean : (∑ t ∈ Finset.range d, (x i j t + c i j)) / (d : ℚ) =
      (∑ t ∈ Finset.range d, x i j t) / (d : ℚ) + c i j := by
    rw [Finset.sum_add_distrib, Finset.sum_const, Finset.card_range, nsmul_eq_mul, add_div,
      mul_div_cancel_left₀ _ hdq]
  rw [hmean]
  have hvar : (∑ t ∈ Finset.range d,
      ((x i j t + c i j) - ((∑ u ∈ Finset.range d, x i j u) / (d : ℚ) + c i j)) ^ 2) =
      ∑ t ∈ Finset.range d, (x i j t - (∑ u ∈ Finset.range d, x i j u) / (d : ℚ)) ^ 2 := by
    apply Finset.sum_congr rfl
    intro t _
    ring
  rw [hvar]
  ring

theorem layer_norm_shift_invariant_witness :
    0 < 1 ∧
      LayerNormalization.call (fun q => q) cLN 1 (fun i j k => cInp i j k + 1) =
        LayerNormalization.call (fun q => q) cLN 1 cInp :=
  ⟨Nat.one_pos, layer_norm_shift_invariant (fun q => q) cLN 1 cInp (fun _ _ => 1) Nat.one_pos⟩
